import Mathlib

/-!
Verification development for the ScrapeSafe backend core: the canonical
JSON serializer, the signing/verification layer, the rights-file
verification strategy, the verification orchestrator route, license
terms and revocation handling, the license-check cache, and asset-id
parsing.  Each definition is a shallow embedding of the corresponding
TypeScript source function.
-/

namespace ScrapeSafe

/-- JSON-compatible values, as produced by `JSON.parse`: objects are
finite lists of key/value entries in insertion order (a parsed JS object
never has duplicate keys), arrays keep their element order.  Numbers are
modelled as integers; number formatting is orthogonal to every claim
below. -/
inductive JVal where
  | null
  | bool (b : Bool)
  | num (n : Int)
  | str (s : String)
  | arr (elems : List JVal)
  | obj (entries : List (String × JVal))

/-- First entry with the given key, as JS property lookup on a parsed
JSON object. -/
def lookupKey (k : String) : List (String × JVal) → Option JVal
  | [] => none
  | (k', v) :: rest => if k' = k then some v else lookupKey k rest

/-- No key occurs twice (true of every object produced by `JSON.parse`). -/
def nodupKeys : List (String × JVal) → Bool
  | [] => true
  | (k, _) :: rest => (lookupKey k rest).isNone && nodupKeys rest

/-- JSON string escaping used by `JSON.stringify` (the cases relevant to
this development; escaping is applied identically on both sides of every
comparison below). -/
def escapeChar (c : Char) : String :=
  if c = '"' then "\\\""
  else if c = '\\' then "\\\\"
  else if c = '\n' then "\\n"
  else if c = '\r' then "\\r"
  else if c = '\t' then "\\t"
  else String.mk [c]

def jsonQuote (s : String) : String :=
  "\"" ++ String.join (s.data.map escapeChar) ++ "\""

/-- Lexicographic comparison of strings as character lists, the default
comparison `Array.prototype.sort()` applies to the key strings in
`stableStringify`. -/
def charListLE : List Char → List Char → Bool
  | [], _ => true
  | _ :: _, [] => false
  | a :: as, b :: bs =>
      if a < b then true
      else if b < a then false
      else charListLE as bs

/-- Ordering of object entries by key, the comparison `Object.keys(value).sort()`
performs in `stableStringify`. -/
def keyLE (p q : String × String) : Prop :=
  charListLE p.1.data q.1.data = true

instance : DecidableRel keyLE :=
  fun p q => inferInstanceAs (Decidable (charListLE p.1.data q.1.data = true))

theorem charListLE_total : ∀ a b : List Char, charListLE a b = true ∨ charListLE b a = true
  | [], _ => .inl rfl
  | _ :: _, [] => .inr rfl
  | a :: as, b :: bs => by
      rcases lt_trichotomy a b with h | h | h
      · left
        simp [charListLE, h]
      · subst h
        rcases charListLE_total as bs with ih | ih <;>
          simp [charListLE, ih, lt_irrefl]
      · right
        simp [charListLE, h]

theorem charListLE_trans :
    ∀ a b c : List Char, charListLE a b = true → charListLE b c = true →
      charListLE a c = true
  | [], _, _, _, _ => rfl
  | _ :: _, [], _, hab, _ => by simp [charListLE] at hab
  | _ :: _, _ :: _, [], _, hbc => by simp [charListLE] at hbc
  | a :: as, b :: bs, c :: cs, hab, hbc => by
      simp only [charListLE] at hab hbc ⊢
      rcases lt_trichotomy a b with h₁ | h₁ | h₁
      · rcases lt_trichotomy b c with h₂ | h₂ | h₂
        · simp [lt_trans h₁ h₂]
        · subst h₂
          simp [h₁]
        · simp [h₂, asymm h₂] at hbc
      · subst h₁
        rcases lt_trichotomy a c with h₂ | h₂ | h₂
        · simp [h₂]
        · subst h₂
          simp [lt_irrefl] at hab hbc ⊢
          exact charListLE_trans _ _ _ hab hbc
        · simp [h₂, asymm h₂] at hbc
      · simp [h₁, asymm h₁] at hab

theorem charListLE_antisymm :
    ∀ a b : List Char, charListLE a b = true → charListLE b a = true → a = b
  | [], [], _, _ => rfl
  | [], _ :: _, _, hba => by simp [charListLE] at hba
  | _ :: _, [], hab, _ => by simp [charListLE] at hab
  | a :: as, b :: bs, hab, hba => by
      simp only [charListLE] at hab hba
      rcases lt_trichotomy a b with h | h | h
      · simp [h, asymm h] at hba
      · subst h
        simp only [lt_irrefl, if_false] at hab hba
        rw [charListLE_antisymm as bs hab hba]
      · simp [h, asymm h] at hab

instance : IsTotal (String × String) keyLE :=
  ⟨fun a b => charListLE_total a.1.data b.1.data⟩

instance : IsTrans (String × String) keyLE :=
  ⟨fun _ _ _ h h' => charListLE_trans _ _ _ h h'⟩

theorem keyLE_antisymm {p q : String × String} (h : keyLE p q) (h' : keyLE q p) :
    p.1 = q.1 := by
  apply String.ext
  exact charListLE_antisymm _ _ h h'

/-- Sort object entries by key (the `Object.keys(value).sort()` step of
`stableStringify`). -/
def sortEntries (l : List (String × String)) : List (String × String) :=
  List.insertionSort keyLE l

def renderEntry (p : String × String) : String :=
  jsonQuote p.1 ++ ":" ++ p.2

def renderEntries (l : List (String × String)) : String :=
  String.intercalate "," (l.map renderEntry)

mutual

/-- `stableStringify` from `src/utils/stableStringify.ts`: deterministic
JSON stringify whose replacer sorts the keys of every object at every
nesting level before serialization; arrays keep their order.  (Sorting
compares keys only, so serializing entry values before or after the key
sort yields the same string; values are serialized first here so the
recursion is over subterms.) -/
def serialize : JVal → String
  | .null => "null"
  | .bool true => "true"
  | .bool false => "false"
  | .num n => toString n
  | .str s => jsonQuote s
  | .arr xs => "[" ++ serializeElems xs ++ "]"
  | .obj kvs => "\x7b" ++ renderEntries (sortEntries (stringifyEntries kvs)) ++ "\x7d"

def serializeElems : List JVal → String
  | [] => ""
  | [x] => serialize x
  | x :: y :: rest => serialize x ++ "," ++ serializeElems (y :: rest)

def stringifyEntries : List (String × JVal) → List (String × String)
  | [] => []
  | (k, v) :: rest => (k, serialize v) :: stringifyEntries rest

end

/-- `stableStringify(obj)` — the canonical serialization every signing
and verification operation depends on. -/
def stableStringify (v : JVal) : String :=
  serialize v

mutual

/-- Two JSON values have identical key/value sets and differ only in
object key insertion order (at any nesting level): objects must have
duplicate-free keys and match key-for-key with equivalent values;
arrays must match element for element, in order. -/
def jequiv : JVal → JVal → Bool
  | .null, .null => true
  | .bool a, .bool b => a == b
  | .num a, .num b => a == b
  | .str a, .str b => a == b
  | .arr xs, .arr ys => jequivElems xs ys
  | .obj k1, .obj k2 =>
      nodupKeys k1 && nodupKeys k2 && (k1.length == k2.length) && jequivEntries k1 k2
  | _, _ => false

def jequivElems : List JVal → List JVal → Bool
  | [], [] => true
  | x :: xs, y :: ys => jequiv x y && jequivElems xs ys
  | _, _ => false

def jequivEntries : List (String × JVal) → List (String × JVal) → Bool
  | [], _ => true
  | (k, v) :: rest, other =>
      (match lookupKey k other with
       | some v2 => jequiv v v2
       | none => false) && jequivEntries rest other

end

/-- Remove the (first) entry with the given key. -/
def removeKey (k : String) : List (String × JVal) → List (String × JVal)
  | [] => []
  | (k', v) :: rest => if k' = k then rest else (k', v) :: removeKey k rest

theorem lookupKey_isSome_of_mem {k : String} {v : JVal} :
    ∀ {l : List (String × JVal)}, (k, v) ∈ l → (lookupKey k l).isSome = true := by
  intro l
  induction l with
  | nil => intro h; cases h
  | cons p rest ih =>
      intro h
      obtain ⟨k', v'⟩ := p
      rcases List.mem_cons.mp h with h | h
      · cases h
        simp [lookupKey]
      · by_cases hk : k' = k
        · simp [lookupKey, hk]
        · simpa [lookupKey, hk] using ih h

theorem perm_cons_removeKey {k : String} {v : JVal} :
    ∀ {l : List (String × JVal)}, lookupKey k l = some v →
      l.Perm ((k, v) :: removeKey k l) := by
  intro l
  induction l with
  | nil => intro h; simp [lookupKey] at h
  | cons p rest ih =>
      intro h
      obtain ⟨k', v'⟩ := p
      by_cases hk : k' = k
      · subst hk
        have hv : v' = v := by simpa [lookupKey] using h
        subst hv
        simp [removeKey]
      · simp only [lookupKey, if_neg hk] at h
        simp only [removeKey, if_neg hk]
        exact ((ih h).cons (k', v')).trans (List.Perm.swap _ _ _)

theorem lookupKey_removeKey_ne {k k' : String} (hne : k' ≠ k) :
    ∀ l : List (String × JVal), lookupKey k' (removeKey k l) = lookupKey k' l := by
  intro l
  have hne' : k ≠ k' := fun h => hne h.symm
  induction l with
  | nil => simp [removeKey]
  | cons p rest ih =>
      obtain ⟨k₀, v₀⟩ := p
      by_cases hk : k₀ = k
      · subst hk
        simp [removeKey, lookupKey, hne']
      · by_cases hk' : k₀ = k'
        · subst hk'
          simp [removeKey, lookupKey, hk]
        · simp [removeKey, lookupKey, hk, hk', ih]

theorem lookupKey_removeKey_none {k k' : String} :
    ∀ l : List (String × JVal), lookupKey k' l = none →
      lookupKey k' (removeKey k l) = none := by
  intro l
  induction l with
  | nil => simp [removeKey]
  | cons p rest ih =>
      obtain ⟨k₀, v₀⟩ := p
      intro h
      by_cases hk' : k₀ = k'
      · simp [lookupKey, hk'] at h
      · simp only [lookupKey, if_neg hk'] at h
        by_cases hk : k₀ = k
        · simpa [removeKey, hk] using h
        · simpa [removeKey, hk, lookupKey, hk'] using ih h

theorem nodupKeys_removeKey {k : String} :
    ∀ l : List (String × JVal), nodupKeys l = true → nodupKeys (removeKey k l) = true := by
  intro l
  induction l with
  | nil => simp [removeKey]
  | cons p rest ih =>
      obtain ⟨k₀, v₀⟩ := p
      intro h
      simp only [nodupKeys, Bool.and_eq_true] at h
      by_cases hk : k₀ = k
      · simpa [removeKey, hk] using h.2
      · simp only [removeKey, if_neg hk, nodupKeys, Bool.and_eq_true]
        refine ⟨?_, ih h.2⟩
        have := h.1
        rw [Option.isNone_iff_eq_none] at this ⊢
        exact lookupKey_removeKey_none rest this

theorem length_removeKey {k : String} {v : JVal} :
    ∀ l : List (String × JVal), lookupKey k l = some v →
      (removeKey k l).length + 1 = l.length := by
  intro l
  induction l with
  | nil => intro h; simp [lookupKey] at h
  | cons p rest ih =>
      obtain ⟨k₀, v₀⟩ := p
      intro h
      by_cases hk : k₀ = k
      · simp [removeKey, hk]
      · simp only [lookupKey, if_neg hk] at h
        simp [removeKey, hk, ih h]

/-- Pointwise key-matching with equal images yields a permutation of the
mapped entry lists (keys duplicate-free on both sides, equal lengths). -/
theorem perm_map_of_pointwise (F : JVal → String) :
    ∀ (k1 k2 : List (String × JVal)),
      nodupKeys k1 = true → nodupKeys k2 = true → k1.length = k2.length →
      (∀ p ∈ k1, ∃ v2, lookupKey p.1 k2 = some v2 ∧ F p.2 = F v2) →
      (k1.map (fun p => (p.1, F p.2))).Perm (k2.map (fun p => (p.1, F p.2))) := by
  intro k1
  induction k1 with
  | nil =>
      intro k2 _ _ hlen _
      have : k2 = [] := List.length_eq_zero.mp hlen.symm
      subst this
      rfl
  | cons p rest ih =>
      intro k2 hnd1 hnd2 hlen hpt
      obtain ⟨k, v⟩ := p
      obtain ⟨v2, hlook, hFv⟩ := hpt (k, v) (List.mem_cons_self _ _)
      dsimp only at hlook hFv
      have hperm2 : k2.Perm ((k, v2) :: removeKey k k2) := perm_cons_removeKey hlook
      simp only [nodupKeys, Bool.and_eq_true] at hnd1
      have htail :
          (rest.map (fun p => (p.1, F p.2))).Perm
            ((removeKey k k2).map (fun p => (p.1, F p.2))) := by
        refine ih (removeKey k k2) hnd1.2 (nodupKeys_removeKey k2 hnd2) ?_ ?_
        · have := length_removeKey k2 hlook
          simp only [List.length_cons] at hlen
          omega
        · intro q hq
          obtain ⟨v3, hlook3, hF3⟩ := hpt q (List.mem_cons_of_mem _ hq)
          have hne : q.1 ≠ k := by
            intro hEq
            have hsome : (lookupKey k rest).isSome = true := by
              obtain ⟨q1, q2⟩ := q
              simp only at hEq
              subst hEq
              exact lookupKey_isSome_of_mem hq
            rw [Option.isNone_iff_eq_none] at hnd1
            rw [hnd1.1] at hsome
            simp at hsome
          exact ⟨v3, by rw [lookupKey_removeKey_ne hne k2]; exact hlook3, hF3⟩
      simp only [List.map_cons]
      rw [hFv]
      refine (htail.cons (k, F v2)).trans ?_
      have hmap := (hperm2.map (fun p => (p.1, F p.2))).symm
      simpa using hmap

theorem lookupKey_eq_none_iff {k : String} :
    ∀ l : List (String × JVal), lookupKey k l = none ↔ k ∉ l.map Prod.fst := by
  intro l
  induction l with
  | nil => simp [lookupKey]
  | cons p rest ih =>
      obtain ⟨k₀, v₀⟩ := p
      by_cases hk : k₀ = k
      · subst hk
        simp [lookupKey]
      · simp only [lookupKey, if_neg hk, List.map_cons, List.mem_cons]
        rw [ih]
        constructor
        · intro h hmem
          rcases hmem with h' | h'
          · exact hk h'.symm
          · exact h h'
        · intro h hmem
          exact h (Or.inr hmem)

theorem nodup_keys_of_nodupKeys :
    ∀ l : List (String × JVal), nodupKeys l = true → (l.map Prod.fst).Nodup := by
  intro l
  induction l with
  | nil => simp
  | cons p rest ih =>
      obtain ⟨k₀, v₀⟩ := p
      intro h
      simp only [nodupKeys, Bool.and_eq_true] at h
      simp only [List.map_cons, List.nodup_cons]
      refine ⟨?_, ih h.2⟩
      have := h.1
      rw [Option.isNone_iff_eq_none, lookupKey_eq_none_iff] at this
      exact this

/-- Two sorted entry lists that are permutations of each other and have
duplicate-free keys are equal (the key comparison is antisymmetric only
on duplicate-free keys). -/
theorem eq_of_perm_of_sorted_keys :
    ∀ (l1 l2 : List (String × String)), l1.Perm l2 →
      l1.Sorted keyLE → l2.Sorted keyLE → (l1.map Prod.fst).Nodup → l1 = l2 := by
  intro l1
  induction l1 with
  | nil =>
      intro l2 hp _ _ _
      exact (hp.nil_eq).symm ▸ rfl
  | cons a t1 ih =>
      intro l2 hp hs1 hs2 hnd
      cases l2 with
      | nil => exact absurd hp.symm (by simp)
      | cons b t2 =>
          have hab : a = b := by
            by_contra hne
            have ha2 : a ∈ b :: t2 := hp.mem_iff.mp (List.mem_cons_self _ _)
            have hb1 : b ∈ a :: t1 := hp.mem_iff.mpr (List.mem_cons_self _ _)
            have hat2 : a ∈ t2 := by
              rcases List.mem_cons.mp ha2 with h | h
              · exact absurd h hne
              · exact h
            have hbt1 : b ∈ t1 := by
              rcases List.mem_cons.mp hb1 with h | h
              · exact absurd h.symm hne
              · exact h
            have h1 : keyLE a b := List.rel_of_sorted_cons hs1 b hbt1
            have h2 : keyLE b a := List.rel_of_sorted_cons hs2 a hat2
            have hkey : a.1 = b.1 := keyLE_antisymm h1 h2
            simp only [List.map_cons, List.nodup_cons] at hnd
            exact hnd.1 (hkey ▸ List.mem_map_of_mem Prod.fst hbt1)
          subst hab
          have htail : t1.Perm t2 := hp.cons_inv
          have := ih t2 htail hs1.of_cons hs2.of_cons
            (by simpa using (List.nodup_cons.mp (by simpa using hnd)).2)
          rw [this]

theorem stringifyEntries_eq_map :
    ∀ l : List (String × JVal), stringifyEntries l = l.map (fun p => (p.1, serialize p.2)) := by
  intro l
  induction l with
  | nil => simp [stringifyEntries]
  | cons p rest ih =>
      obtain ⟨k, v⟩ := p
      simp [stringifyEntries, ih]

theorem keys_stringifyEntries (l : List (String × JVal)) :
    (stringifyEntries l).map Prod.fst = l.map Prod.fst := by
  rw [stringifyEntries_eq_map, List.map_map]
  rfl

mutual

theorem serialize_congr : ∀ a b : JVal, jequiv a b = true → serialize a = serialize b
  | .null, .null, _ => rfl
  | .bool a, .bool b, h => by
      have : a = b := by simpa [jequiv] using h
      rw [this]
  | .num a, .num b, h => by
      have : a = b := by simpa [jequiv] using h
      rw [this]
  | .str a, .str b, h => by
      have : a = b := by simpa [jequiv] using h
      rw [this]
  | .arr xs, .arr ys, h => by
      have h' : jequivElems xs ys = true := by simpa [jequiv] using h
      have := serializeElems_congr xs ys h'
      simp [serialize, this]
  | .obj k1, .obj k2, h => by
      have h' := h
      simp only [jequiv, Bool.and_eq_true, beq_iff_eq] at h'
      obtain ⟨⟨⟨hnd1, hnd2⟩, hlen⟩, hent⟩ := h'
      have hpt := entries_pointwise k1 k2 hent
      have hperm := perm_map_of_pointwise serialize k1 k2 hnd1 hnd2 hlen hpt
      have hperm' : (stringifyEntries k1).Perm (stringifyEntries k2) := by
        rw [stringifyEntries_eq_map, stringifyEntries_eq_map]
        exact hperm
      have hsorted1 : (sortEntries (stringifyEntries k1)).Sorted keyLE :=
        List.sorted_insertionSort keyLE _
      have hsorted2 : (sortEntries (stringifyEntries k2)).Sorted keyLE :=
        List.sorted_insertionSort keyLE _
      have hps : (sortEntries (stringifyEntries k1)).Perm (sortEntries (stringifyEntries k2)) :=
        ((List.perm_insertionSort keyLE _).trans hperm').trans
          (List.perm_insertionSort keyLE _).symm
      have hnodup : ((sortEntries (stringifyEntries k1)).map Prod.fst).Nodup := by
        have hkeys : ((stringifyEntries k1).map Prod.fst).Nodup := by
          rw [keys_stringifyEntries]
          exact nodup_keys_of_nodupKeys k1 hnd1
        exact (((List.perm_insertionSort keyLE _).map Prod.fst).nodup_iff).mpr hkeys
      have heq := eq_of_perm_of_sorted_keys _ _ hps hsorted1 hsorted2 hnodup
      simp only [serialize]
      rw [heq]
  | .null, .bool _, h => by simp [jequiv] at h
  | .null, .num _, h => by simp [jequiv] at h
  | .null, .str _, h => by simp [jequiv] at h
  | .null, .arr _, h => by simp [jequiv] at h
  | .null, .obj _, h => by simp [jequiv] at h
  | .bool _, .null, h => by simp [jequiv] at h
  | .bool _, .num _, h => by simp [jequiv] at h
  | .bool _, .str _, h => by simp [jequiv] at h
  | .bool _, .arr _, h => by simp [jequiv] at h
  | .bool _, .obj _, h => by simp [jequiv] at h
  | .num _, .null, h => by simp [jequiv] at h
  | .num _, .bool _, h => by simp [jequiv] at h
  | .num _, .str _, h => by simp [jequiv] at h
  | .num _, .arr _, h => by simp [jequiv] at h
  | .num _, .obj _, h => by simp [jequiv] at h
  | .str _, .null, h => by simp [jequiv] at h
  | .str _, .bool _, h => by simp [jequiv] at h
  | .str _, .num _, h => by simp [jequiv] at h
  | .str _, .arr _, h => by simp [jequiv] at h
  | .str _, .obj _, h => by simp [jequiv] at h
  | .arr _, .null, h => by simp [jequiv] at h
  | .arr _, .bool _, h => by simp [jequiv] at h
  | .arr _, .num _, h => by simp [jequiv] at h
  | .arr _, .str _, h => by simp [jequiv] at h
  | .arr _, .obj _, h => by simp [jequiv] at h
  | .obj _, .null, h => by simp [jequiv] at h
  | .obj _, .bool _, h => by simp [jequiv] at h
  | .obj _, .num _, h => by simp [jequiv] at h
  | .obj _, .str _, h => by simp [jequiv] at h
  | .obj _, .arr _, h => by simp [jequiv] at h

theorem serializeElems_congr :
    ∀ xs ys : List JVal, jequivElems xs ys = true → serializeElems xs = serializeElems ys
  | [], [], _ => rfl
  | [], _ :: _, h => by simp [jequivElems] at h
  | _ :: _, [], h => by simp [jequivElems] at h
  | x :: xs, y :: ys, h => by
      simp only [jequivElems, Bool.and_eq_true] at h
      have h1 := serialize_congr x y h.1
      have h2 := serializeElems_congr xs ys h.2
      cases xs with
      | nil =>
          cases ys with
          | nil => simpa [serializeElems] using h1
          | cons y' ys' => simp [jequivElems] at h
      | cons x' xs' =>
          cases ys with
          | nil => simp [jequivElems] at h
          | cons y' ys' => simp [serializeElems, h1, h2]

theorem entries_pointwise :
    ∀ (k1 k2 : List (String × JVal)), jequivEntries k1 k2 = true →
      ∀ p ∈ k1, ∃ v2, lookupKey p.1 k2 = some v2 ∧ serialize p.2 = serialize v2
  | [], _, _, p, hp => absurd hp (List.not_mem_nil p)
  | (k, v) :: rest, other, h, p, hp => by
      simp only [jequivEntries, Bool.and_eq_true] at h
      rcases List.mem_cons.mp hp with hEq | hp'
      · subst hEq
        have h1 := h.1
        cases hl : lookupKey k other with
        | none => rw [hl] at h1; simp at h1
        | some v2 =>
            rw [hl] at h1
            exact ⟨v2, rfl, serialize_congr v v2 h1⟩
      · exact entries_pointwise rest other h.2 p hp'

end

/-- Claim C1: For every pair of JSON-compatible values A and B that have
identical key/value sets and differ only in object key insertion order
(at any nesting level), the canonicalizer produces byte-identical
output: `stableStringify A = stableStringify B`.  Object keys are
sorted at every nesting level by the serializer, arrays preserve their
element order (`jequiv` relates arrays only element-for-element in
order), and the input is not mutated (`stableStringify` is a pure
function of its argument). -/
theorem canonical_key_order_invariant (a b : JVal) (h : jequiv a b = true) :
    stableStringify a = stableStringify b :=
  serialize_congr a b h

/-- Witness for C1 at concrete values: two nested objects with keys
inserted in different orders, at both levels, canonicalize identically. -/
theorem canonical_key_order_invariant_witness :
    jequiv
        (.obj [("b", .num 2), ("a", .obj [("y", .null), ("x", .bool true)])])
        (.obj [("a", .obj [("x", .bool true), ("y", .null)]), ("b", .num 2)]) = true ∧
      stableStringify (.obj [("b", .num 2), ("a", .obj [("y", .null), ("x", .bool true)])]) =
        stableStringify (.obj [("a", .obj [("x", .bool true), ("y", .null)]), ("b", .num 2)]) := by
  have h : jequiv
      (.obj [("b", .num 2), ("a", .obj [("y", .null), ("x", .bool true)])])
      (.obj [("a", .obj [("x", .bool true), ("y", .null)]), ("b", .num 2)]) = true := by
    simp [jequiv, jequivEntries, jequivElems, lookupKey, nodupKeys]
  exact ⟨h, canonical_key_order_invariant _ _ h⟩

/-!
Signer/verifier — `src/src/services/signer.ts` (the file holding
`initServerSigner`, `signMessage`, `signReceipt`, `verifySignature`,
`verifyReceipt`, `verifyOwnerSignature`).  The ethers wallet is an
external collaborator (spec section 6, "Signing identity source"); its
EIP-191 personal-message scheme with recoverable-signature verification
is modelled symbolically below.
-/

/-- Modelled from the spec: the external signing-identity collaborator's
EIP-191 personal-message signing (`ethers.Wallet.signMessage`).  A
signature binds the signer address and the exact message signed; the
encoding `address ++ ":" ++ message` is symbolic and is injective for
colon-free addresses. -/
def mkSignature (signerAddress message : String) : String :=
  signerAddress ++ ":" ++ message

/-- Split a character list at its first colon. -/
def splitColon : List Char → Option (List Char × List Char)
  | [] => none
  | c :: rest =>
      if c = ':' then some ([], rest)
      else
        match splitColon rest with
        | some (a, m) => some (c :: a, m)
        | none => none

/-- Modelled from the spec: the external `ethers.verifyMessage`
collaborator.  Recovering with the very message that was signed yields
the signer's address; recovering with any other message yields a
(different, essentially unpredictable) address; a malformed signature
makes it throw, modelled as `Except.error`. -/
def recoverAddress (message signature : String) : Except String String :=
  match splitColon signature.data with
  | none => .error "invalid signature"
  | some (a, m) =>
      if String.mk m = message then .ok (String.mk a)
      else .ok ("0xother" ++ String.mk a ++ String.mk m)

/-- `signMessage` (signer.ts): EIP-191 personal_sign with the server
wallet, whose address is `serverAddress`. -/
def signMessage (serverAddress message : String) : String :=
  mkSignature serverAddress message

/-- `signReceipt` (signer.ts): canonicalizes the receipt object and
signs the canonical string. -/
def signReceipt (serverAddress : String) (receipt : JVal) : String :=
  signMessage serverAddress (stableStringify receipt)

/-- `verifySignature` (signer.ts): recover the signer address via
`ethers.verifyMessage`.  The exception ethers raises on a malformed
signature propagates — there is no try/catch here. -/
def verifySignature (message signature : String) : Except String String :=
  recoverAddress message signature

/-- ASCII lower-casing of a character (JS `toLowerCase` restricted to
the ASCII range, which covers hex addresses). -/
def lowerChar (c : Char) : Char :=
  if 65 ≤ c.toNat ∧ c.toNat ≤ 90 then Char.ofNat (c.toNat + 32) else c

/-- `toLowerCase()` as used on addresses throughout the source. -/
def strToLower (s : String) : String :=
  String.mk (s.data.map lowerChar)

/-- Result shape of `verifyReceipt` / `verifyOwnerSignature`. -/
structure SigCheck where
  valid : Bool
  signer : String

/-- `verifyReceipt` (signer.ts): canonicalize, recover, compare with
the server address case-insensitively; any exception is caught and
turned into `valid := false, signer := ""`. -/
def verifyReceipt (serverAddress : String) (receipt : JVal) (signature : String) : SigCheck :=
  match verifySignature (stableStringify receipt) signature with
  | .ok recovered => ⟨strToLower recovered == strToLower serverAddress, recovered⟩
  | .error _ => ⟨false, ""⟩

/-- `verifyOwnerSignature` (signer.ts): same recovery, compared against
a caller-supplied expected owner address. -/
def verifyOwnerSignature (payload : JVal) (signature expectedOwner : String) : SigCheck :=
  match verifySignature (stableStringify payload) signature with
  | .ok recovered => ⟨strToLower recovered == strToLower expectedOwner, recovered⟩
  | .error _ => ⟨false, ""⟩

theorem splitColon_append {a : List Char} (h : ':' ∉ a) :
    ∀ m : List Char, splitColon (a ++ ':' :: m) = some (a, m) := by
  induction a with
  | nil => intro m; simp [splitColon]
  | cons c cs ih =>
      intro m
      have hc : ¬c = ':' := by
        intro hEq
        exact h (by rw [hEq]; exact List.mem_cons_self _ _)
      have h' : ':' ∉ cs := fun hm => h (List.mem_cons_of_mem _ hm)
      simp [splitColon, hc, ih h']

theorem recover_mkSignature (a m : String) (h : ':' ∉ a.data) :
    recoverAddress m (mkSignature a m) = .ok a := by
  unfold recoverAddress mkSignature
  have hdata : (a ++ ":" ++ m).data = a.data ++ ':' :: m.data := by
    simp [String.data_append]
  rw [hdata, splitColon_append h m.data]
  simp

/-- Claim C2: for every JSON-compatible payload P, recovering the signer
from the canonical serialization of P and the server's signature over
that same canonical serialization yields the server's address, compared
case-insensitively. -/
theorem recover_sign_canonical_is_server (serverAddress : String) (P : JVal)
    (h : ':' ∉ serverAddress.data) :
    ∃ a, recoverAddress (stableStringify P) (signReceipt serverAddress P) = .ok a ∧
      strToLower a = strToLower serverAddress :=
  ⟨serverAddress, recover_mkSignature serverAddress (stableStringify P) h, rfl⟩

/-- Witness for C2 at a concrete server address and payload. -/
theorem recover_sign_canonical_is_server_witness :
    ':' ∉ ("0xServer01" : String).data ∧
      ∃ a, recoverAddress (stableStringify (.obj [("k", .str "v")]))
            (signReceipt "0xServer01" (.obj [("k", .str "v")])) = .ok a ∧
        strToLower a = strToLower "0xServer01" := by
  have h : ':' ∉ ("0xServer01" : String).data := by decide
  exact ⟨h, recover_sign_canonical_is_server "0xServer01" (.obj [("k", .str "v")]) h⟩

/-- Claim C3: `verifyReceipt object signature` returns `valid = true`
iff the address recovered from the canonical serialization of the
object and the signature case-insensitively equals the server's
address; whenever recovery succeeds, the returned `signer` field is the
recovered address (and on a recovery exception it is `""`). -/
theorem verifyReceipt_valid_iff (serverAddress : String) (receipt : JVal)
    (signature : String) :
    ((verifyReceipt serverAddress receipt signature).valid = true ↔
      ∃ a, verifySignature (stableStringify receipt) signature = .ok a ∧
        strToLower a = strToLower serverAddress) ∧
    ∀ a, verifySignature (stableStringify receipt) signature = .ok a →
      (verifyReceipt serverAddress receipt signature).signer = a := by
  unfold verifyReceipt
  cases hres : verifySignature (stableStringify receipt) signature with
  | ok a =>
      constructor
      · constructor
        · intro hv
          exact ⟨a, rfl, by simpa using hv⟩
        · rintro ⟨a', ha', hlow⟩
          cases ha'
          simpa using hlow
      · intro a' ha'
        cases ha'
        rfl
  | error e =>
      constructor
      · simp
      · intro a' ha'
        cases ha'

/-- Witness for C3: at a server-signed receipt the validity criterion is
met and `verifyReceipt` reports valid. -/
theorem verifyReceipt_valid_iff_witness :
    (verifyReceipt "0xS" (.num 1) (signReceipt "0xS" (.num 1))).valid = true := by
  have h := (verifyReceipt_valid_iff "0xS" (.num 1) (signReceipt "0xS" (.num 1))).1
  refine h.mpr ⟨"0xS", ?_, rfl⟩
  exact recover_mkSignature "0xS" (stableStringify (.num 1)) (by decide)

/-- Claim C5 counterexample: contrary to the claim that signer recovery
"returns an invalid/empty result and never throws an exception to its
caller", the bare recovery operation `verifySignature` propagates the
exception ethers raises on a malformed signature (modelled as
`Except.error`) instead of returning an address. -/
theorem verifySignature_malformed_throws :
    verifySignature "hello" "garbage" = .error "invalid signature" := by
  rfl

/-- Claim C5 (amended): recovery on a malformed signature raises an
exception out of `verifySignature`; the catching wrappers
`verifyReceipt` and `verifyOwnerSignature` convert it to
`valid = false, signer = ""` and never throw to their callers. -/
theorem malformed_signature_wrappers_return_invalid
    (serverAddress expectedOwner : String) (receipt payload : JVal)
    (signature : String) (h : splitColon signature.data = none) :
    verifyReceipt serverAddress receipt signature = ⟨false, ""⟩ ∧
      verifyOwnerSignature payload signature expectedOwner = ⟨false, ""⟩ := by
  unfold verifyReceipt verifyOwnerSignature verifySignature recoverAddress
  rw [h]
  exact ⟨rfl, rfl⟩

/-- Witness for the amended C5 at a concrete malformed signature. -/
theorem malformed_signature_wrappers_return_invalid_witness :
    splitColon ("garbage" : String).data = none ∧
      verifyReceipt "0xS" (.num 1) "garbage" = ⟨false, ""⟩ ∧
        verifyOwnerSignature (.num 2) "garbage" "0xOwner" = ⟨false, ""⟩ := by
  have h : splitColon ("garbage" : String).data = none := by decide
  exact ⟨h, malformed_signature_wrappers_return_invalid "0xS" "0xOwner" (.num 1) (.num 2) "garbage" h⟩

/-!
Rights-file strategy — `src/src/services/rightsVerify.ts`
(`checkRightsFile`).  The HTTP fetch is an external collaborator; its
outcome (exception, or status + content type + parsed JSON body) is an
input of the embedded check.
-/

/-- Is `needle` a prefix of the second list? -/
def startsWithChars : List Char → List Char → Bool
  | [], _ => true
  | _ :: _, [] => false
  | a :: as, b :: bs => a == b && startsWithChars as bs

/-- Does the second list contain `needle` as a contiguous sublist
(JS `String.prototype.includes`)? -/
def containsSub (needle : List Char) : List Char → Bool
  | [] => needle.isEmpty
  | c :: rest => startsWithChars needle (c :: rest) || containsSub needle rest

def strContains (hay sub : String) : Bool :=
  containsSub sub.data hay.data

/-- JS truthiness of a property-access result (`undefined`, `null`,
`false`, `0` and `""` are falsy). -/
def jsTruthy : Option JVal → Bool
  | none => false
  | some .null => false
  | some (.bool b) => b
  | some (.num n) => n != 0
  | some (.str s) => s != ""
  | some (.arr _) => true
  | some (.obj _) => true

/-- JS property access `payload[k]` on a parsed JSON value (access on a
non-object non-null value yields `undefined`; access on `null` throws
and is handled separately in `checkRightsFile`). -/
def getField (payload : JVal) (k : String) : Option JVal :=
  match payload with
  | .obj kvs => lookupKey k kvs
  | _ => none

/-- JS strict equality `payload[k] === s` for a string `s`: true exactly
when the field is a string equal to `s`. -/
def fieldIsStr (payload : JVal) (k s : String) : Bool :=
  match getField payload k with
  | some (.str s') => s' == s
  | _ => false

/-- JS string interpolation of a field value (display only; the array
case is approximated, it affects no comparison below). -/
def jsDisplay : JVal → String
  | .null => "null"
  | .bool true => "true"
  | .bool false => "false"
  | .num n => toString n
  | .str s => s
  | .arr _ => "[array]"
  | .obj _ => "[object Object]"

def displayField (payload : JVal) (k : String) : String :=
  match getField payload k with
  | some v => jsDisplay v
  | none => "undefined"

/-- The rest-spread `const (signature, ...payloadWithoutSig) = payload`:
the payload without its `signature` entry. -/
def removeField (payload : JVal) (k : String) : JVal :=
  match payload with
  | .obj kvs => .obj (removeKey k kvs)
  | v => v

/-- The required-fields presence check of `checkRightsFile`
(`!payload.domain || !payload.owner || !payload.token || !payload.signature`). -/
def requiredFieldsOk (payload : JVal) : Bool :=
  jsTruthy (getField payload "domain") && jsTruthy (getField payload "owner") &&
    jsTruthy (getField payload "token") && jsTruthy (getField payload "signature")

/-- Outcome of the HTTP fetch of the rights file, as observed by
`checkRightsFile`: the fetch threw (network error / timeout), or a
response arrived carrying a status, a content-type header and a body
whose JSON parse (`response.json()`) either throws or yields a value. -/
inductive FetchOutcome where
  | fetchThrew (msg : String)
  | response (status : Nat) (contentType : String) (body : Except String JVal)

/-- Result shape of `checkRightsFile`. -/
structure RightsResult where
  found : Bool
  valid : Bool
  details : String
  payload : Option JVal

/-- The payload-content checks of `checkRightsFile` (rightsVerify.ts),
run on a successfully parsed body: field presence, exact domain match,
exact token match, case-insensitive owner match, then the owner
signature over the payload with the `signature` field excluded.  A
`null` body or a truthy non-string `owner` raises a TypeError that the
outer catch converts to a found=false result; a non-string `signature`
value makes ethers throw inside `verifyOwnerSignature`, whose own catch
yields an invalid-signature (found=true) result. -/
def rightsPayloadCheck (domain expectedToken expectedOwner : String)
    (payload : JVal) : RightsResult :=
  match payload with
  | .null =>
      ⟨false, false,
        "Failed to fetch or parse rights file: Cannot read properties of null (reading 'domain')",
        none⟩
  | payload =>
      if requiredFieldsOk payload = false then
        ⟨true, false, "Rights file missing required fields (domain, owner, token, signature)",
          some payload⟩
      else if fieldIsStr payload "domain" domain = false then
        ⟨true, false,
          "Domain mismatch. Expected: " ++ domain ++ ", Got: " ++ displayField payload "domain",
          some payload⟩
      else if fieldIsStr payload "token" expectedToken = false then
        ⟨true, false,
          "Token mismatch. Expected: " ++ expectedToken ++ ", Got: " ++ displayField payload "token",
          some payload⟩
      else
        match getField payload "owner" with
        | some (.str ownerStr) =>
            if strToLower ownerStr ≠ strToLower expectedOwner then
              ⟨true, false,
                "Owner mismatch. Expected: " ++ expectedOwner ++ ", Got: " ++ ownerStr,
                some payload⟩
            else
              match getField payload "signature" with
              | some (.str sigStr) =>
                  let verification :=
                    verifyOwnerSignature (removeField payload "signature") sigStr expectedOwner
                  if verification.valid = false then
                    ⟨true, false,
                      "Invalid signature. Recovered signer: " ++
                        (if verification.signer = "" then "none" else verification.signer),
                      some payload⟩
                  else
                    ⟨true, true, "Valid rights file with verified owner signature", some payload⟩
              | _ =>
                  ⟨true, false, "Invalid signature. Recovered signer: none", some payload⟩
        | _ =>
            ⟨false, false,
              "Failed to fetch or parse rights file: payload.owner.toLowerCase is not a function",
              none⟩

/-- `checkRightsFile` (rightsVerify.ts): fetch outcome handling (the
outer try/catch, the `response.ok` gate, the content-type gate and the
JSON parse), followed by the payload-content checks. -/
def checkRightsFile (domain expectedToken expectedOwner : String)
    (outcome : FetchOutcome) : RightsResult :=
  let url := "https://" ++ domain ++ "/.well-known/scrapesafe.json"
  match outcome with
  | .fetchThrew msg =>
      ⟨false, false, "Failed to fetch or parse rights file: " ++ msg, none⟩
  | .response status contentType body =>
      if ¬ (200 ≤ status ∧ status ≤ 299) then
        ⟨false, false, "Failed to fetch " ++ url ++ ": HTTP " ++ toString status, none⟩
      else if (strContains contentType "application/json" || strContains contentType "text/") = false then
        ⟨false, false, "Invalid content type: " ++ contentType ++ ". Expected application/json", none⟩
      else
        match body with
        | .error msg =>
            ⟨false, false, "Failed to fetch or parse rights file: " ++ msg, none⟩
        | .ok payload => rightsPayloadCheck domain expectedToken expectedOwner payload

theorem checkRightsFile_ok_body (d t o : String) (body : Except String JVal) :
    checkRightsFile d t o (.response 200 "application/json" body) =
      match body with
      | .error msg => ⟨false, false, "Failed to fetch or parse rights file: " ++ msg, none⟩
      | .ok payload => rightsPayloadCheck d t o payload := by
  have hct : (strContains "application/json" "application/json" ||
      strContains "application/json" "text/") = true := by decide
  simp only [checkRightsFile]
  rw [if_neg (by omega), if_neg (by simp [hct])]

theorem mkSignature_ne_empty (a m : String) : mkSignature a m ≠ "" := by
  intro h
  have hd : (mkSignature a m).data = a.data ++ ':' :: m.data := by
    simp [mkSignature, String.data_append]
  rw [h] at hd
  simp at hd

theorem verifyOwnerSignature_mkSignature (payload : JVal) (other expected : String)
    (h : ':' ∉ other.data) :
    verifyOwnerSignature payload (mkSignature other (stableStringify payload)) expected =
      ⟨strToLower other == strToLower expected, other⟩ := by
  unfold verifyOwnerSignature verifySignature
  rw [recover_mkSignature other _ h]

/-- A well-formed rights-file body: the signed content (no signature
field). -/
def rightsFileBody (d o t ts : String) : JVal :=
  .obj [("domain", .str d), ("owner", .str o), ("token", .str t), ("timestamp", .str ts)]

/-- A rights-file payload whose signature was produced by `other` over
the correct signed content. -/
def rightsPayloadSignedBy (d o t ts other : String) : JVal :=
  .obj [("domain", .str d), ("owner", .str o), ("token", .str t), ("timestamp", .str ts),
    ("signature", .str (mkSignature other (stableStringify (rightsFileBody d o t ts))))]

/-- Claim C4: for the rights-file strategy every content-check failure —
missing required fields, domain mismatch, token mismatch,
case-insensitive owner mismatch, or invalid owner signature (verified
over the payload with the `signature` field excluded) — yields
found=true, valid=false with a reason string identifying the failed
check; in particular a payload with correct domain, token and owner but
a signature produced by a different address yields found=true,
valid=false; whereas a network failure or a parse failure yields
found=false, valid=false. -/
theorem rights_file_failure_modes (d t o : String) :
    (∀ msg, checkRightsFile d t o (.fetchThrew msg) =
      ⟨false, false, "Failed to fetch or parse rights file: " ++ msg, none⟩) ∧
    (∀ msg, checkRightsFile d t o (.response 200 "application/json" (.error msg)) =
      ⟨false, false, "Failed to fetch or parse rights file: " ++ msg, none⟩) ∧
    (∀ kvs, requiredFieldsOk (.obj kvs) = false →
      checkRightsFile d t o (.response 200 "application/json" (.ok (.obj kvs))) =
        ⟨true, false, "Rights file missing required fields (domain, owner, token, signature)",
          some (.obj kvs)⟩) ∧
    (∀ kvs, requiredFieldsOk (.obj kvs) = true →
      fieldIsStr (.obj kvs) "domain" d = false →
      checkRightsFile d t o (.response 200 "application/json" (.ok (.obj kvs))) =
        ⟨true, false,
          "Domain mismatch. Expected: " ++ d ++ ", Got: " ++ displayField (.obj kvs) "domain",
          some (.obj kvs)⟩) ∧
    (∀ kvs, requiredFieldsOk (.obj kvs) = true →
      fieldIsStr (.obj kvs) "domain" d = true →
      fieldIsStr (.obj kvs) "token" t = false →
      checkRightsFile d t o (.response 200 "application/json" (.ok (.obj kvs))) =
        ⟨true, false,
          "Token mismatch. Expected: " ++ t ++ ", Got: " ++ displayField (.obj kvs) "token",
          some (.obj kvs)⟩) ∧
    (∀ kvs s, requiredFieldsOk (.obj kvs) = true →
      fieldIsStr (.obj kvs) "domain" d = true →
      fieldIsStr (.obj kvs) "token" t = true →
      getField (.obj kvs) "owner" = some (.str s) →
      strToLower s ≠ strToLower o →
      checkRightsFile d t o (.response 200 "application/json" (.ok (.obj kvs))) =
        ⟨true, false, "Owner mismatch. Expected: " ++ o ++ ", Got: " ++ s, some (.obj kvs)⟩) ∧
    (∀ kvs s sig, requiredFieldsOk (.obj kvs) = true →
      fieldIsStr (.obj kvs) "domain" d = true →
      fieldIsStr (.obj kvs) "token" t = true →
      getField (.obj kvs) "owner" = some (.str s) →
      strToLower s = strToLower o →
      getField (.obj kvs) "signature" = some (.str sig) →
      (verifyOwnerSignature (removeField (.obj kvs) "signature") sig o).valid = false →
      (checkRightsFile d t o (.response 200 "application/json" (.ok (.obj kvs)))).found = true ∧
        (checkRightsFile d t o (.response 200 "application/json" (.ok (.obj kvs)))).valid = false) ∧
    (∀ ts other, d ≠ "" → o ≠ "" → t ≠ "" → ':' ∉ other.data →
      strToLower other ≠ strToLower o →
      (checkRightsFile d t o
          (.response 200 "application/json" (.ok (rightsPayloadSignedBy d o t ts other)))).found = true ∧
        (checkRightsFile d t o
          (.response 200 "application/json" (.ok (rightsPayloadSignedBy d o t ts other)))).valid = false) := by
  refine ⟨fun msg => rfl, fun msg => by rw [checkRightsFile_ok_body], ?_, ?_, ?_, ?_, ?_, ?_⟩
  · intro kvs h
    rw [checkRightsFile_ok_body]
    show rightsPayloadCheck d t o (.obj kvs) = _
    simp only [rightsPayloadCheck]
    rw [if_pos h]
  · intro kvs h1 h2
    rw [checkRightsFile_ok_body]
    show rightsPayloadCheck d t o (.obj kvs) = _
    simp only [rightsPayloadCheck]
    rw [if_neg (by simp [h1]), if_pos h2]
  · intro kvs h1 h2 h3
    rw [checkRightsFile_ok_body]
    show rightsPayloadCheck d t o (.obj kvs) = _
    simp only [rightsPayloadCheck]
    rw [if_neg (by simp [h1]), if_neg (by simp [h2]), if_pos h3]
  · intro kvs s h1 h2 h3 hown hne
    rw [checkRightsFile_ok_body]
    show rightsPayloadCheck d t o (.obj kvs) = _
    simp only [rightsPayloadCheck]
    rw [if_neg (by simp [h1]), if_neg (by simp [h2]), if_neg (by simp [h3]), hown]
    simp only
    rw [if_pos hne]
  · intro kvs s sig h1 h2 h3 hown heq hsig hv
    rw [checkRightsFile_ok_body]
    have hstep : rightsPayloadCheck d t o (.obj kvs) =
        ⟨true, false,
          "Invalid signature. Recovered signer: " ++
            (if (verifyOwnerSignature (removeField (.obj kvs) "signature") sig o).signer = ""
              then "none"
              else (verifyOwnerSignature (removeField (.obj kvs) "signature") sig o).signer),
          some (.obj kvs)⟩ := by
      simp only [rightsPayloadCheck]
      rw [if_neg (by simp [h1]), if_neg (by simp [h2]), if_neg (by simp [h3]), hown]
      simp only
      rw [if_neg (by simp [heq]), hsig]
      simp only
      rw [if_pos hv]
    show (rightsPayloadCheck d t o (.obj kvs)).found = true ∧
      (rightsPayloadCheck d t o (.obj kvs)).valid = false
    rw [hstep]
    exact ⟨rfl, rfl⟩
  · intro ts other hd ho ht hcol hne
    rw [checkRightsFile_ok_body]
    have hrm : removeField (rightsPayloadSignedBy d o t ts other) "signature" =
        rightsFileBody d o t ts := by
      simp [removeField, removeKey, rightsPayloadSignedBy, rightsFileBody]
    have hver : verifyOwnerSignature (removeField (rightsPayloadSignedBy d o t ts other) "signature")
        (mkSignature other (stableStringify (rightsFileBody d o t ts))) o =
        ⟨strToLower other == strToLower o, other⟩ := by
      rw [hrm]
      exact verifyOwnerSignature_mkSignature (rightsFileBody d o t ts) other o hcol
    have hvalid : (verifyOwnerSignature
        (removeField (rightsPayloadSignedBy d o t ts other) "signature")
        (mkSignature other (stableStringify (rightsFileBody d o t ts))) o).valid = false := by
      rw [hver]
      simpa using hne
    have hreq : requiredFieldsOk (rightsPayloadSignedBy d o t ts other) = true := by
      simp [requiredFieldsOk, rightsPayloadSignedBy, getField, lookupKey, jsTruthy,
        bne_iff_ne, hd, ho, ht, mkSignature_ne_empty]
    have hstep : rightsPayloadCheck d t o (rightsPayloadSignedBy d o t ts other) =
        ⟨true, false,
          "Invalid signature. Recovered signer: " ++ (if other = "" then "none" else other),
          some (rightsPayloadSignedBy d o t ts other)⟩ := by
      show rightsPayloadCheck d t o (.obj _) = _
      simp only [rightsPayloadSignedBy, rightsPayloadCheck]
      rw [if_neg (by simpa [rightsPayloadSignedBy] using hreq)]
      rw [if_neg (by simp [fieldIsStr, getField, lookupKey])]
      rw [if_neg (by simp [fieldIsStr, getField, lookupKey])]
      have hown : lookupKey "owner"
          [("domain", JVal.str d), ("owner", JVal.str o), ("token", JVal.str t),
            ("timestamp", JVal.str ts),
            ("signature", JVal.str (mkSignature other (stableStringify (rightsFileBody d o t ts))))] =
          some (.str o) := by
        simp [lookupKey]
      rw [show getField (JVal.obj
          [("domain", JVal.str d), ("owner", JVal.str o), ("token", JVal.str t),
            ("timestamp", JVal.str ts),
            ("signature", JVal.str (mkSignature other (stableStringify (rightsFileBody d o t ts))))])
          "owner" = some (.str o) from hown]
      simp only
      rw [if_neg (by simp)]
      rw [show getField (JVal.obj
          [("domain", JVal.str d), ("owner", JVal.str o), ("token", JVal.str t),
            ("timestamp", JVal.str ts),
            ("signature", JVal.str (mkSignature other (stableStringify (rightsFileBody d o t ts))))])
          "signature" =
          some (.str (mkSignature other (stableStringify (rightsFileBody d o t ts)))) from by
        simp [getField, lookupKey]]
      simp only
      rw [if_pos (by simpa [rightsPayloadSignedBy] using hvalid)]
      rw [show (verifyOwnerSignature (removeField (JVal.obj
          [("domain", JVal.str d), ("owner", JVal.str o), ("token", JVal.str t),
            ("timestamp", JVal.str ts),
            ("signature", JVal.str (mkSignature other (stableStringify (rightsFileBody d o t ts))))])
          "signature")
          (mkSignature other (stableStringify (rightsFileBody d o t ts))) o).signer = other from by
        have := hver
        simp only [rightsPayloadSignedBy] at this
        rw [this]]
    show (rightsPayloadCheck d t o (rightsPayloadSignedBy d o t ts other)).found = true ∧
      (rightsPayloadCheck d t o (rightsPayloadSignedBy d o t ts other)).valid = false
    rw [hstep]
    exact ⟨rfl, rfl⟩

/-- Witness for C4 at concrete inputs, one per failure mode: network
failure, parse failure, missing fields, domain mismatch, token
mismatch, owner mismatch, unverifiable signature, and a signature
produced by a different address over the correct content. -/
theorem rights_file_failure_modes_witness :
    checkRightsFile "example.com" "tok1" "0xOwner" (.fetchThrew "boom") =
      ⟨false, false, "Failed to fetch or parse rights file: boom", none⟩ ∧
    checkRightsFile "example.com" "tok1" "0xOwner"
        (.response 200 "application/json" (.error "bad json")) =
      ⟨false, false, "Failed to fetch or parse rights file: bad json", none⟩ ∧
    checkRightsFile "example.com" "tok1" "0xOwner"
        (.response 200 "application/json" (.ok (.obj [("domain", .str "example.com")]))) =
      ⟨true, false, "Rights file missing required fields (domain, owner, token, signature)",
        some (.obj [("domain", .str "example.com")])⟩ ∧
    checkRightsFile "example.com" "tok1" "0xOwner"
        (.response 200 "application/json" (.ok (.obj [("domain", .str "other.com"),
          ("owner", .str "0xOwner"), ("token", .str "tok1"), ("signature", .str "x")]))) =
      ⟨true, false, "Domain mismatch. Expected: example.com, Got: other.com",
        some (.obj [("domain", .str "other.com"), ("owner", .str "0xOwner"),
          ("token", .str "tok1"), ("signature", .str "x")])⟩ ∧
    checkRightsFile "example.com" "tok1" "0xOwner"
        (.response 200 "application/json" (.ok (.obj [("domain", .str "example.com"),
          ("owner", .str "0xOwner"), ("token", .str "bad"), ("signature", .str "x")]))) =
      ⟨true, false, "Token mismatch. Expected: tok1, Got: bad",
        some (.obj [("domain", .str "example.com"), ("owner", .str "0xOwner"),
          ("token", .str "bad"), ("signature", .str "x")])⟩ ∧
    checkRightsFile "example.com" "tok1" "0xOwner"
        (.response 200 "application/json" (.ok (.obj [("domain", .str "example.com"),
          ("owner", .str "0xNotOwner"), ("token", .str "tok1"), ("signature", .str "x")]))) =
      ⟨true, false, "Owner mismatch. Expected: 0xOwner, Got: 0xNotOwner",
        some (.obj [("domain", .str "example.com"), ("owner", .str "0xNotOwner"),
          ("token", .str "tok1"), ("signature", .str "x")])⟩ ∧
    ((checkRightsFile "example.com" "tok1" "0xOwner"
        (.response 200 "application/json" (.ok (.obj [("domain", .str "example.com"),
          ("owner", .str "0xOwner"), ("token", .str "tok1"),
          ("signature", .str "nosig")])))).found = true ∧
      (checkRightsFile "example.com" "tok1" "0xOwner"
        (.response 200 "application/json" (.ok (.obj [("domain", .str "example.com"),
          ("owner", .str "0xOwner"), ("token", .str "tok1"),
          ("signature", .str "nosig")])))).valid = false) ∧
    ((checkRightsFile "example.com" "tok1" "0xOwner"
        (.response 200 "application/json"
          (.ok (rightsPayloadSignedBy "example.com" "0xOwner" "tok1" "2024" "0xEvil")))).found = true ∧
      (checkRightsFile "example.com" "tok1" "0xOwner"
        (.response 200 "application/json"
          (.ok (rightsPayloadSignedBy "example.com" "0xOwner" "tok1" "2024" "0xEvil")))).valid = false) := by
  obtain ⟨c1, c2, c3, c4, c5, c6, c7, c8⟩ :=
    rights_file_failure_modes "example.com" "tok1" "0xOwner"
  exact ⟨c1 "boom", c2 "bad json",
    c3 _ (by decide),
    c4 _ (by decide) (by decide),
    c5 _ (by decide) (by decide) (by decide),
    c6 _ "0xNotOwner" (by decide) (by decide) (by decide) rfl (by decide),
    c7 _ "0xOwner" "nosig" (by decide) (by decide) (by decide) rfl rfl rfl rfl,
    c8 "2024" "0xEvil" (by decide) (by decide) (by decide) (by decide) (by decide)⟩

/-!
License-check cache — `src/src/services/story.ts` part holding
`InMemoryCache`, `getLicenseCheckCacheKey`, `cacheLicenseCheck`,
`getCachedLicenseCheck`, `invalidateLicenseCache`.  Time is
milliseconds (`Date.now()`), passed explicitly.
-/

/-- Value cached for a license check (`{ hasLicense, licenseId }`). -/
structure LicenseCheckVal where
  hasLicense : Bool
  licenseId : Option Nat

structure CacheEntry where
  value : LicenseCheckVal
  expiresAt : Nat

/-- The cache's backing `Map`: newest binding first, lookup takes the
most recent one. -/
abbrev CacheStore := List (String × CacheEntry)

def storeLookup (key : String) : CacheStore → Option CacheEntry
  | [] => none
  | (k, e) :: rest => if k = key then some e else storeLookup key rest

def storeDelete (key : String) : CacheStore → CacheStore
  | [] => []
  | (k, e) :: rest =>
      if k = key then storeDelete key rest else (k, e) :: storeDelete key rest

/-- `InMemoryCache.get` (cache.ts): a present entry strictly past its
`expiresAt` is deleted on access and reported absent. -/
def cacheGet (now : Nat) (key : String) (store : CacheStore) :
    Option LicenseCheckVal × CacheStore :=
  match storeLookup key store with
  | none => (none, store)
  | some entry =>
      if now > entry.expiresAt then (none, storeDelete key store)
      else (some entry.value, store)

/-- `InMemoryCache.set` (cache.ts): overwrite unconditionally with
`expiresAt = now + ttlSeconds * 1000`. -/
def cacheSet (now : Nat) (key : String) (value : LicenseCheckVal) (ttlSeconds : Nat)
    (store : CacheStore) : CacheStore :=
  (key, ⟨value, now + ttlSeconds * 1000⟩) :: storeDelete key store

/-- `getLicenseCheckCacheKey` (cache.ts). -/
def getLicenseCheckCacheKey (ipId buyer : String) : String :=
  "license:" ++ ipId ++ ":" ++ strToLower buyer

/-- `cacheLicenseCheck` (cache.ts): cache for 1 minute (TTL 60s). -/
def cacheLicenseCheck (now : Nat) (ipId buyer : String) (hasLicense : Bool)
    (licenseId : Option Nat) (store : CacheStore) : CacheStore :=
  cacheSet now (getLicenseCheckCacheKey ipId buyer) ⟨hasLicense, licenseId⟩ 60 store

/-- `getCachedLicenseCheck` (cache.ts). -/
def getCachedLicenseCheck (now : Nat) (ipId buyer : String) (store : CacheStore) :
    Option LicenseCheckVal × CacheStore :=
  cacheGet now (getLicenseCheckCacheKey ipId buyer) store

/-- `invalidateLicenseCache` (cache.ts). -/
def invalidateLicenseCache (ipId buyer : String) (store : CacheStore) : CacheStore :=
  storeDelete (getLicenseCheckCacheKey ipId buyer) store

theorem lowerChar_idem (c : Char) : lowerChar (lowerChar c) = lowerChar c := by
  unfold lowerChar
  by_cases h : 65 ≤ c.toNat ∧ c.toNat ≤ 90
  · rw [if_pos h]
    have hv : (c.toNat + 32).isValidChar := Or.inl (by omega)
    have ht : (Char.ofNat (c.toNat + 32)).toNat = c.toNat + 32 := by
      unfold Char.ofNat
      rw [dif_pos hv]
      simp [Char.toNat, Char.ofNatAux, UInt32.toNat, BitVec.toNat_ofNatLt]
    rw [ht, if_neg (by omega)]
  · rw [if_neg h, if_neg h]

theorem strToLower_idem (s : String) : strToLower (strToLower s) = strToLower s := by
  simp only [strToLower, List.map_map]
  congr 1
  apply List.map_congr_left
  intro a _
  exact lowerChar_idem a

/-!
Story service — `src/src/services/story.ts`: `parseSiteIdFromIpId`,
the fallback resolution of asset identifiers to site ids.
-/

/-- Numeric value of a run of decimal digit characters. -/
def digitsVal (ds : List Char) : Nat :=
  ds.foldl (fun acc c => acc * 10 + (c.toNat - 48)) 0

/-- Strip an expected leading character sequence. -/
def chopLeading : List Char → List Char → Option (List Char)
  | [], cs => some cs
  | _ :: _, [] => none
  | p :: ps, c :: cs => if c = p then chopLeading ps cs else none

/-- The `^story:local:(\d+)$` regex of `parseSiteIdFromIpId`: the digit
run when the identifier matches, `none` otherwise. -/
def storyLocalDigits (s : String) : Option (List Char) :=
  match chopLeading "story:local:".data s.data with
  | some rest =>
      if rest ≠ [] ∧ rest.all Char.isDigit then some rest else none
  | none => none

def jsParseDigits (cs : List Char) : Option Nat :=
  let ds := cs.takeWhile Char.isDigit
  if ds = [] then none else some (digitsVal ds)

/-- JS `parseInt(s, 10)`: skip leading whitespace, accept one optional
sign, then read a maximal run of decimal digits; `NaN` (here `none`)
when that run is empty. -/
def jsParseInt (s : String) : Option Int :=
  match s.data.dropWhile Char.isWhitespace with
  | [] => none
  | c :: rest =>
      if c = '-' then (jsParseDigits rest).map (fun n => -(n : Int))
      else if c = '+' then (jsParseDigits rest).map (fun n => (n : Int))
      else (jsParseDigits (c :: rest)).map (fun n => (n : Int))

/-- The at-most-one sign consumption step of `parseInt`. -/
def signStripped : List Char → List Char
  | [] => []
  | c :: rest =>
      if c = '-' then rest else if c = '+' then rest else c :: rest

/-- `parseSiteIdFromIpId` (story.ts): the `story:local:<n>` pattern,
then `parseInt(ipId, 10)` as fallback, `null` when both fail. -/
def parseSiteIdFromIpId (ipId : String) : Option Int :=
  match storyLocalDigits ipId with
  | some ds => some (digitsVal ds : Int)
  | none => jsParseInt ipId

theorem chopLeading_append : ∀ p cs : List Char, chopLeading p (p ++ cs) = some cs := by
  intro p
  induction p with
  | nil => intro cs; rfl
  | cons c ps ih => intro cs; simp [chopLeading, ih]

theorem isDigit_ne_whitespace {c : Char} (h : c.isDigit = true) : c.isWhitespace = false := by
  have h1 : c ≠ ' ' := by rintro rfl; exact absurd h (by decide)
  have h2 : c ≠ '\t' := by rintro rfl; exact absurd h (by decide)
  have h3 : c ≠ '\r' := by rintro rfl; exact absurd h (by decide)
  have h4 : c ≠ '\n' := by rintro rfl; exact absurd h (by decide)
  simp [Char.isWhitespace, h1, h2, h3, h4]

theorem isDigit_ne_minus {c : Char} (h : c.isDigit = true) : c ≠ '-' := by
  rintro rfl; exact absurd h (by decide)

theorem isDigit_ne_plus {c : Char} (h : c.isDigit = true) : c ≠ '+' := by
  rintro rfl; exact absurd h (by decide)

theorem isDigit_ne_s {c : Char} (h : c.isDigit = true) : c ≠ 's' := by
  rintro rfl; exact absurd h (by decide)

/-- Claim C10 counterexample: `"-5abc"` has no leading digit (its first
character is `'-'`) and does not match `story:local:<digits>`, yet the
fallback resolves it to `-5` rather than to no site, because
`parseInt` accepts an optional sign (and leading whitespace) before the
digit run. -/
theorem parseSiteId_no_leading_digit_counterexample :
    ("-5abc" : String).data.head? = some '-' ∧ ('-').isDigit = false ∧
      storyLocalDigits "-5abc" = none ∧
      parseSiteIdFromIpId "-5abc" = some (-5) := by
  decide

/-- Claim C10 (amended): `story:local:<digits>` resolves to the site id
the digits denote; a string whose first character is a digit resolves
to the value of its maximal leading digit run regardless of trailing
characters; a leading `'-'` followed by a digit resolves to the negated
run (`parseInt` semantics); and a string that neither matches
`story:local:<digits>` nor has a digit run right after its optional
leading whitespace and optional sign resolves to no site. -/
theorem parseSiteId_resolution (ds rest : List Char) (c : Char) (s : String)
    (hne : ds ≠ []) (hdig : ds.all Char.isDigit = true)
    (hc : c.isDigit = true)
    (hs1 : storyLocalDigits s = none)
    (hs2 : (signStripped (s.data.dropWhile Char.isWhitespace)).takeWhile Char.isDigit = []) :
    parseSiteIdFromIpId ("story:local:" ++ String.mk ds) = some (digitsVal ds : Int) ∧
    parseSiteIdFromIpId (String.mk (c :: rest)) =
      some (digitsVal ((c :: rest).takeWhile Char.isDigit) : Int) ∧
    parseSiteIdFromIpId (String.mk ('-' :: c :: rest)) =
      some (-(digitsVal ((c :: rest).takeWhile Char.isDigit) : Int)) ∧
    parseSiteIdFromIpId s = none := by
  have hdata : ("story:local:" ++ String.mk ds).data = "story:local:".data ++ ds := by
    simp [String.data_append]
  refine ⟨?_, ?_, ?_, ?_⟩
  · simp only [parseSiteIdFromIpId, storyLocalDigits, hdata, chopLeading_append]
    rw [if_pos ⟨hne, hdig⟩]
  · have hstory : storyLocalDigits (String.mk (c :: rest)) = none := by
      simp [storyLocalDigits, chopLeading, isDigit_ne_s hc]
    simp only [parseSiteIdFromIpId, hstory, jsParseInt]
    simp [List.dropWhile_cons, isDigit_ne_whitespace hc, isDigit_ne_minus hc,
      isDigit_ne_plus hc, jsParseDigits, List.takeWhile_cons, hc]
  · have hstory : storyLocalDigits (String.mk ('-' :: c :: rest)) = none := by
      simp [storyLocalDigits, chopLeading]
    simp only [parseSiteIdFromIpId, hstory, jsParseInt]
    simp [List.dropWhile_cons, (by decide : ('-').isWhitespace = false), jsParseDigits,
      List.takeWhile_cons, hc]
  · simp only [parseSiteIdFromIpId, hs1, jsParseInt]
    cases hdrop : s.data.dropWhile Char.isWhitespace with
    | nil => rfl
    | cons c0 r0 =>
        rw [hdrop] at hs2
        simp only [signStripped] at hs2
        by_cases hm : c0 = '-'
        · subst hm
          have hs2' : List.takeWhile Char.isDigit r0 = [] := by simpa using hs2
          have hjp : jsParseDigits r0 = none := by
            simp only [jsParseDigits]
            rw [if_pos hs2']
          simp [hjp]
        · by_cases hp : c0 = '+'
          · subst hp
            have hs2' : List.takeWhile Char.isDigit r0 = [] := by simpa using hs2
            have hjp : jsParseDigits r0 = none := by
              simp only [jsParseDigits]
              rw [if_pos hs2']
            simp [hjp]
          · have hs2' : List.takeWhile Char.isDigit (c0 :: r0) = [] := by
              rw [if_neg hm, if_neg hp] at hs2
              exact hs2
            have hjp : jsParseDigits (c0 :: r0) = none := by
              simp only [jsParseDigits]
              rw [if_pos hs2']
            simp [hjp, hm, hp]

/-- Witness for the amended C10 at concrete identifiers:
`story:local:42`, `7abc`, `-7abc` and `story:local:x`. -/
theorem parseSiteId_resolution_witness :
    parseSiteIdFromIpId "story:local:42" = some 42 ∧
    parseSiteIdFromIpId "7abc" = some 7 ∧
    parseSiteIdFromIpId "-7abc" = some (-7) ∧
    parseSiteIdFromIpId "story:local:x" = none := by
  have h := parseSiteId_resolution ['4', '2'] ['a', 'b', 'c'] '7' "story:local:x"
    (by decide) (by decide) (by decide) (by decide) (by decide)
  exact ⟨h.1, h.2.1, h.2.2.1, h.2.2.2⟩

/-!
Data model (prisma schema) and the routes exercising it.
-/

/-- A `Site` row. -/
structure Site where
  id : Nat
  domain : String
  ownerAddress : String
  verificationToken : String
  verified : Bool
  verificationMethod : Option String
  storyIpId : Option String

/-- A `LicenseTerms` row (`allowedActions` is stored JSON-stringified;
`enabled` defaults to true on create). -/
structure LicenseTerms where
  id : Nat
  siteId : Nat
  allowedActions : String
  priceModel : String
  pricePerUnit : Int
  priceToken : String
  termsUri : Option String
  enabled : Bool

/-- A `License` row (the fields the embedded routes read or write). -/
structure License where
  id : Nat
  licenseTermsId : Nat
  buyerAddress : String
  status : String

/-- JS `a || b` on an optional string: `null` and `""` fall through to
the fallback. -/
def jsOrElse (a : Option String) (b : String) : String :=
  match a with
  | some s => if s = "" then b else s
  | none => b

/-- Response of `GET /api/check-license` (the fields the claims are
about). -/
structure CheckLicenseResponse where
  status : Nat
  hasLicense : Bool
  licenseId : Option Nat
  cached : Bool

/-- `GET /api/check-license` (the licensing route file): normalize the
buyer, consult the cache first and answer `cached := true` on a hit;
otherwise resolve the site (`dbSite` is the store's answer), 404 when
absent, else read the active-license query result `dbLicense`, cache it
for a minute and answer `cached := false`. -/
def checkLicenseHandler (now : Nat) (store : CacheStore) (ipId buyer : String)
    (dbSite : Option Site) (dbLicense : Option License) :
    CheckLicenseResponse × CacheStore :=
  let normalizedBuyer := strToLower buyer
  match getCachedLicenseCheck now ipId normalizedBuyer store with
  | (some cached, store') => (⟨200, cached.hasLicense, cached.licenseId, true⟩, store')
  | (none, store') =>
      match dbSite with
      | none => (⟨404, false, none, false⟩, store')
      | some _ =>
          let hasLicense := dbLicense.isSome
          let store'' := cacheLicenseCheck now ipId normalizedBuyer hasLicense
            (dbLicense.map (fun l => l.id)) store'
          (⟨200, hasLicense, dbLicense.map (fun l => l.id), false⟩, store'')

theorem storeLookup_cacheSet_self (now : Nat) (key : String) (value : LicenseCheckVal)
    (ttl : Nat) (store : CacheStore) :
    storeLookup key (cacheSet now key value ttl store) = some ⟨value, now + ttl * 1000⟩ := by
  simp [cacheSet, storeLookup]

theorem storeLookup_storeDelete_self (key : String) :
    ∀ store : CacheStore, storeLookup key (storeDelete key store) = none := by
  intro store
  induction store with
  | nil => simp [storeDelete, storeLookup]
  | cons p rest ih =>
      obtain ⟨k, e⟩ := p
      by_cases hk : k = key
      · simpa [storeDelete, hk] using ih
      · simp [storeDelete, hk, storeLookup, ih]

/-- Claim C9: a license-check result cached at `t0` (60s TTL, applied at
insertion) is still served from the cache at `t0 + 30s` — the route
answers `cached := true` with the stored value, independently of what
the backing store would say — and is treated as absent at `t0 + 61s`,
the access that observes the expiry lazily deleting the entry. -/
theorem cache_ttl_window (store : CacheStore) (t0 : Nat) (ipId buyer : String)
    (h : Bool) (lid : Option Nat) (dbS dbS' : Option Site) (dbL dbL' : Option License) :
    getCachedLicenseCheck (t0 + 30000) ipId buyer
        (cacheLicenseCheck t0 ipId buyer h lid store) =
      (some ⟨h, lid⟩, cacheLicenseCheck t0 ipId buyer h lid store) ∧
    checkLicenseHandler (t0 + 30000) (cacheLicenseCheck t0 ipId buyer h lid store)
        ipId buyer dbS dbL =
      checkLicenseHandler (t0 + 30000) (cacheLicenseCheck t0 ipId buyer h lid store)
        ipId buyer dbS' dbL' ∧
    (checkLicenseHandler (t0 + 30000) (cacheLicenseCheck t0 ipId buyer h lid store)
        ipId buyer dbS dbL).1 = ⟨200, h, lid, true⟩ ∧
    (getCachedLicenseCheck (t0 + 61000) ipId buyer
        (cacheLicenseCheck t0 ipId buyer h lid store)).1 = none ∧
    storeLookup (getLicenseCheckCacheKey ipId buyer)
      (getCachedLicenseCheck (t0 + 61000) ipId buyer
        (cacheLicenseCheck t0 ipId buyer h lid store)).2 = none := by
  have hkey : getLicenseCheckCacheKey ipId (strToLower buyer) =
      getLicenseCheckCacheKey ipId buyer := by
    simp [getLicenseCheckCacheKey, strToLower_idem]
  have hfresh : getCachedLicenseCheck (t0 + 30000) ipId buyer
      (cacheLicenseCheck t0 ipId buyer h lid store) =
      (some ⟨h, lid⟩, cacheLicenseCheck t0 ipId buyer h lid store) := by
    simp only [getCachedLicenseCheck, cacheLicenseCheck, cacheGet,
      storeLookup_cacheSet_self]
    rw [if_neg (by omega)]
  have hfresh' : getCachedLicenseCheck (t0 + 30000) ipId (strToLower buyer)
      (cacheLicenseCheck t0 ipId buyer h lid store) =
      (some ⟨h, lid⟩, cacheLicenseCheck t0 ipId buyer h lid store) := by
    simp only [getCachedLicenseCheck, hkey]
    exact hfresh
  refine ⟨hfresh, ?_, ?_, ?_, ?_⟩
  · simp only [checkLicenseHandler, hfresh']
  · simp only [checkLicenseHandler, hfresh']
  · simp only [getCachedLicenseCheck, cacheLicenseCheck, cacheGet,
      storeLookup_cacheSet_self]
    rw [if_pos (by omega)]
  · simp only [getCachedLicenseCheck, cacheLicenseCheck, cacheGet,
      storeLookup_cacheSet_self]
    rw [if_pos (by omega)]
    simp [cacheSet, storeDelete, storeLookup_storeDelete_self]

/-!
Verification orchestrator route — `POST /api/owner/verify` and the dev
`POST /api/owner/test-mint` (the owner route file).  The strategy
result and the IP-registration collaborator result are inputs; the
handler operates on the site row the route looked up.
-/

/-- JS truthiness of a nullable string column. -/
def strTruthy (o : Option String) : Bool :=
  match o with
  | some s => s != ""
  | none => false

structure VerifyResponse where
  status : Nat
  ok : Bool
  details : String
  method : Option String
  storyIpId : Option String
  storySimulated : Option Bool

/-- `POST /api/owner/verify`: validate the method selector, short-circuit
on an already-verified site reporting the recorded method, otherwise
dispatch to the strategy (dns/meta succeed on `found`, file on
`found && valid`) and on success persist `verified`, the method and the
registered asset id. -/
def verifyHandler (site : Site) (method : String)
    (strategyFound strategyValid : Bool) (strategyDetails : String)
    (storyIp : String) (storySim : Bool) : VerifyResponse × Site :=
  if ¬ (method = "dns" ∨ method = "meta" ∨ method = "file") then
    (⟨400, false, "method must be one of: dns, meta, file", none, none, none⟩, site)
  else if site.verified then
    (⟨200, true, "Site already verified", site.verificationMethod, none, none⟩, site)
  else
    let ok := if method = "file" then strategyFound && strategyValid else strategyFound
    if ok then
      (⟨200, true, strategyDetails, none, some storyIp, some storySim⟩,
        { site with
            verified := true,
            verificationMethod := some method,
            storyIpId := some storyIp })
    else
      (⟨200, false, strategyDetails, none, none, none⟩, site)

structure TestMintResponse where
  status : Nat
  ok : Bool
  storyIpId : Option String
  details : String

/-- `POST /api/owner/test-mint` (dev endpoint): returns the existing
asset id when present, otherwise force-mints and marks the site
verified with method `dev-test`. -/
def testMintHandler (site : Site) (storyIp : String) : TestMintResponse × Site :=
  if strTruthy site.storyIpId then
    (⟨200, true, site.storyIpId, "Site already has Story IP"⟩, site)
  else
    (⟨200, true, some storyIp, "Story IP minted via test endpoint"⟩,
      { site with
          verified := true,
          verificationMethod := some "dev-test",
          storyIpId := some storyIp })

/-- Claim C6: once a site's `verified` flag is true it stays true — the
mutating operations (`verify`, `test-mint`) never clear it — and a
valid re-invocation of verification on an already-verified site
short-circuits: it answers success reporting the previously recorded
verification method, leaves the site unchanged, and its outcome is
independent of any strategy result (no re-check). -/
theorem verified_is_terminal (site : Site) (m : String)
    (f v : Bool) (det : String) (ip : String) (sim : Bool)
    (f' v' : Bool) (det' : String) (ip' : String) (sim' : Bool)
    (hm : m = "dns" ∨ m = "meta" ∨ m = "file")
    (hv : site.verified = true) :
    verifyHandler site m f v det ip sim =
      (⟨200, true, "Site already verified", site.verificationMethod, none, none⟩, site) ∧
    verifyHandler site m f v det ip sim = verifyHandler site m f' v' det' ip' sim' ∧
    ((verifyHandler site m f v det ip sim).2).verified = true ∧
    ((testMintHandler site ip).2).verified = true := by
  have hshort : ∀ (f₀ v₀ : Bool) (det₀ ip₀ : String) (sim₀ : Bool),
      verifyHandler site m f₀ v₀ det₀ ip₀ sim₀ =
        (⟨200, true, "Site already verified", site.verificationMethod, none, none⟩, site) := by
    intro f₀ v₀ det₀ ip₀ sim₀
    unfold verifyHandler
    rw [if_neg (not_not_intro hm), if_pos hv]
  refine ⟨hshort f v det ip sim, ?_, ?_, ?_⟩
  · rw [hshort f v det ip sim, hshort f' v' det' ip' sim']
  · rw [hshort f v det ip sim]
    exact hv
  · unfold testMintHandler
    by_cases ht : strTruthy site.storyIpId = true
    · rw [if_pos ht]
      exact hv
    · rw [if_neg ht]

/-- Witness for C6 at a concrete verified site. -/
theorem verified_is_terminal_witness :
    verifyHandler ⟨1, "example.com", "0xO", "tok", true, some "dns", some "story:local:1"⟩
        "meta" true false "details" "ip" false =
      (⟨200, true, "Site already verified", some "dns", none, none⟩,
        ⟨1, "example.com", "0xO", "tok", true, some "dns", some "story:local:1"⟩) ∧
    ((testMintHandler ⟨1, "example.com", "0xO", "tok", true, some "dns", some "story:local:1"⟩
        "ip").2).verified = true := by
  have h := verified_is_terminal
    ⟨1, "example.com", "0xO", "tok", true, some "dns", some "story:local:1"⟩
    "meta" true false "details" "ip" false false true "other" "ip2" true
    (Or.inr (Or.inl rfl)) rfl
  exact ⟨h.1, h.2.2.2⟩

/-!
License terms route — `POST /api/owner/set-terms` (the owner route
file): update the existing enabled terms row of the site or create a
single new one (`enabled` defaults to true in the schema).
-/

structure SetTermsRequest where
  siteId : Nat
  allowedActions : List String
  priceModel : String
  pricePerUnit : Int
  priceToken : Option String
  termsUri : Option String

/-- `JSON.stringify(allowedActions)` as stored in the row. -/
def encodeActions (actions : List String) : String :=
  serialize (.arr (actions.map JVal.str))

def findSiteById (sites : List Site) (id : Nat) : Option Site :=
  sites.find? (fun s => s.id == id)

/-- `prisma.licenseTerms.findFirst (where : (siteId, enabled: true))`. -/
def findEnabledTerms (terms : List LicenseTerms) (siteId : Nat) : Option LicenseTerms :=
  terms.find? (fun tr => tr.siteId == siteId && tr.enabled)

structure SetTermsResponse where
  status : Nat
  termsId : Option Nat

/-- `POST /api/owner/set-terms`: input validation, site lookup, the
verified-site precondition, then update-or-create of the single enabled
terms row.  `newId` is the id the store would assign on create. -/
def setTermsHandler (sites : List Site) (terms : List LicenseTerms)
    (req : SetTermsRequest) (newId : Nat) : SetTermsResponse × List LicenseTerms :=
  if req.allowedActions.length = 0 then (⟨400, none⟩, terms)
  else if ¬ (req.priceModel = "PER_SCRAPE" ∨ req.priceModel = "SUBSCRIPTION" ∨
      req.priceModel = "FLAT") then (⟨400, none⟩, terms)
  else if req.pricePerUnit < 0 then (⟨400, none⟩, terms)
  else
    match findSiteById sites req.siteId with
    | none => (⟨404, none⟩, terms)
    | some site =>
        if site.verified = false then (⟨403, none⟩, terms)
        else
          match findEnabledTerms terms req.siteId with
          | some existing =>
              (⟨200, some existing.id⟩,
                terms.map (fun tr =>
                  if tr.id = existing.id then
                    { tr with
                        allowedActions := encodeActions req.allowedActions,
                        priceModel := req.priceModel,
                        pricePerUnit := req.pricePerUnit,
                        priceToken := jsOrElse req.priceToken "USD",
                        termsUri := req.termsUri }
                  else tr))
          | none =>
              (⟨200, some newId⟩,
                terms ++ [⟨newId, req.siteId, encodeActions req.allowedActions,
                  req.priceModel, req.pricePerUnit, jsOrElse req.priceToken "USD",
                  req.termsUri, true⟩])

/-- At most one enabled `LicenseTerms` row per site. -/
def atMostOneEnabled (terms : List LicenseTerms) : Prop :=
  ∀ sid : Nat, terms.countP (fun tr => tr.siteId == sid && tr.enabled) ≤ 1

/-- Claim C7: `set-terms` preserves the at-most-one-enabled-row-per-site
invariant: an existing enabled row is updated in place (its `siteId`
and `enabled` fields untouched), otherwise exactly one new enabled row
is created; no branch ever yields a second enabled row for a site. -/
theorem set_terms_preserves_single_enabled (sites : List Site) (terms : List LicenseTerms)
    (req : SetTermsRequest) (newId : Nat) (hinv : atMostOneEnabled terms) :
    atMostOneEnabled (setTermsHandler sites terms req newId).2 := by
  unfold setTermsHandler
  by_cases h1 : req.allowedActions.length = 0
  · rw [if_pos h1]; exact hinv
  rw [if_neg h1]
  by_cases h2 : ¬ (req.priceModel = "PER_SCRAPE" ∨ req.priceModel = "SUBSCRIPTION" ∨
      req.priceModel = "FLAT")
  · rw [if_pos h2]; exact hinv
  rw [if_neg h2]
  by_cases h3 : req.pricePerUnit < 0
  · rw [if_pos h3]; exact hinv
  rw [if_neg h3]
  cases hsite : findSiteById sites req.siteId with
  | none => exact hinv
  | some site =>
      dsimp only
      by_cases h4 : site.verified = false
      · rw [if_pos h4]; exact hinv
      rw [if_neg h4]
      cases hfind : findEnabledTerms terms req.siteId with
      | some existing =>
          intro sid
          have hfun : ((fun tr : LicenseTerms => tr.siteId == sid && tr.enabled) ∘
              (fun tr : LicenseTerms =>
                if tr.id = existing.id then
                  { tr with
                      allowedActions := encodeActions req.allowedActions,
                      priceModel := req.priceModel,
                      pricePerUnit := req.pricePerUnit,
                      priceToken := jsOrElse req.priceToken "USD",
                      termsUri := req.termsUri }
                else tr)) =
              (fun tr : LicenseTerms => tr.siteId == sid && tr.enabled) := by
            funext tr
            by_cases hid : tr.id = existing.id
            · simp [Function.comp, hid]
            · simp [Function.comp, hid]
          rw [List.countP_map, hfun]
          exact hinv sid
      | none =>
          intro sid
          rw [List.countP_append]
          by_cases hsid : req.siteId = sid
          · have hzero : terms.countP (fun tr => tr.siteId == sid && tr.enabled) = 0 := by
              rw [List.countP_eq_zero]
              intro tr htr
              have := List.find?_eq_none.mp hfind tr htr
              simpa [hsid] using this
            have hone : List.countP (fun tr => tr.siteId == sid && tr.enabled)
                [(⟨newId, req.siteId, encodeActions req.allowedActions,
                  req.priceModel, req.pricePerUnit, jsOrElse req.priceToken "USD",
                  req.termsUri, true⟩ : LicenseTerms)] ≤ 1 := by
              simp [List.countP_cons, hsid]
            omega
          · have hz : List.countP (fun tr => tr.siteId == sid && tr.enabled)
                [(⟨newId, req.siteId, encodeActions req.allowedActions,
                  req.priceModel, req.pricePerUnit, jsOrElse req.priceToken "USD",
                  req.termsUri, true⟩ : LicenseTerms)] = 0 := by
              simp [List.countP_cons, hsid]
            have := hinv sid
            omega

/-- Witness for C7: a verified site with no terms yet; after set-terms
there is exactly one enabled row. -/
theorem set_terms_preserves_single_enabled_witness :
    atMostOneEnabled ([] : List LicenseTerms) ∧
      atMostOneEnabled (setTermsHandler
        [⟨1, "example.com", "0xO", "tok", true, some "dns", none⟩] []
        ⟨1, ["SCRAPE"], "FLAT", 50, none, none⟩ 1).2 := by
  have hinv : atMostOneEnabled ([] : List LicenseTerms) := by
    intro sid
    simp
  exact ⟨hinv, set_terms_preserves_single_enabled _ _ _ _ hinv⟩

/-!
Admin revoke route — `POST /api/admin/revoke-license`
(`src/src/routes/admin.ts`): look up the license with its terms and
site, reject only when already revoked, set status `revoked`, and
invalidate the cache entry for the (asset id, buyer) pair.
-/

def findLicense (licenses : List License) (id : Nat) : Option License :=
  licenses.find? (fun l => l.id == id)

def findTermsById (terms : List LicenseTerms) (id : Nat) : Option LicenseTerms :=
  terms.find? (fun tr => tr.id == id)

structure RevokeResponse where
  status : Nat
  success : Bool

/-- `POST /api/admin/revoke-license`: 404 when the license does not
exist; a failed relational `include` surfaces as a 500 with no state
change; `400` when the status is already `revoked`; otherwise set the
status to `revoked` and invalidate the cache entry keyed by
`site.storyIpId || "story:local:" ++ site.id` and the license's buyer
address. -/
def revokeHandler (licenses : List License) (terms : List LicenseTerms)
    (sites : List Site) (cache : CacheStore) (licenseId : Nat) :
    RevokeResponse × List License × CacheStore :=
  match findLicense licenses licenseId with
  | none => (⟨404, false⟩, licenses, cache)
  | some license =>
      match findTermsById terms license.licenseTermsId with
      | none => (⟨500, false⟩, licenses, cache)
      | some tr =>
          match findSiteById sites tr.siteId with
          | none => (⟨500, false⟩, licenses, cache)
          | some site =>
              if license.status = "revoked" then (⟨400, false⟩, licenses, cache)
              else
                (⟨200, true⟩,
                  licenses.map (fun l =>
                    if l.id = licenseId then { l with status := "revoked" } else l),
                  invalidateLicenseCache
                    (jsOrElse site.storyIpId ("story:local:" ++ toString site.id))
                    license.buyerAddress cache)

theorem find?_map_update {licenses : List License} {licenseId : Nat} {license : License}
    (h : licenses.find? (fun l => l.id == licenseId) = some license)
    (f : License → License) (hf : ∀ l, (f l).id = l.id) :
    (licenses.map (fun l => if l.id = licenseId then f l else l)).find?
      (fun l => l.id == licenseId) = some (f license) := by
  induction licenses with
  | nil => simp [List.find?] at h
  | cons x rest ih =>
      by_cases hx : x.id = licenseId
      · rw [List.find?_cons_of_pos _ (by simpa using hx)] at h
        have hxl : x = license := Option.some.inj h
        subst hxl
        simp only [List.map_cons, if_pos hx]
        rw [List.find?_cons_of_pos _ (by simpa using (hf x).trans hx)]
      · rw [List.find?_cons_of_neg _ (by simpa using hx)] at h
        simp only [List.map_cons, if_neg hx]
        rw [List.find?_cons_of_neg _ (by simpa using hx)]
        exact ih h

/-- Claim C8 counterexample: revoking a `pending` (never `active`)
license is accepted by the route — the precondition only rejects the
`revoked` status — contradicting "revoke is only valid from the active
status". -/
theorem revoke_pending_accepted_counterexample :
    (revokeHandler [⟨1, 1, "0xbuyer", "pending"⟩]
        [⟨1, 1, "[]", "FLAT", 0, "USD", none, true⟩]
        [⟨1, "example.com", "0xO", "tok", true, some "dns", some "story:ip"⟩]
        [] 1).1 = ⟨200, true⟩ ∧
    ((revokeHandler [⟨1, 1, "0xbuyer", "pending"⟩]
        [⟨1, 1, "[]", "FLAT", 0, "USD", none, true⟩]
        [⟨1, "example.com", "0xO", "tok", true, some "dns", some "story:ip"⟩]
        [] 1).2.1.find? (fun l => l.id == 1)).map License.status = some "revoked" ∧
    ("pending" : String) ≠ "active" := by
  refine ⟨?_, ?_, by decide⟩ <;>
    simp [revokeHandler, findLicense, findTermsById, findSiteById, List.find?,
      invalidateLicenseCache, storeDelete, jsOrElse]

/-- Claim C8 (amended): revoke is rejected (400, license and cache
unchanged) exactly when the license is already `revoked`; any found
license in another status — `active` or `pending` alike — is revoked,
and a successful revocation removes the cached license-check entry for
the (asset identifier, buyer) pair. -/
theorem revoke_rejects_only_revoked (licenses : List License) (terms : List LicenseTerms)
    (sites : List Site) (cache : CacheStore) (licenseId : Nat)
    (license : License) (tr : LicenseTerms) (site : Site)
    (hlic : findLicense licenses licenseId = some license)
    (htr : findTermsById terms license.licenseTermsId = some tr)
    (hsite : findSiteById sites tr.siteId = some site) :
    ((revokeHandler licenses terms sites cache licenseId).1.success = true ↔
      license.status ≠ "revoked") ∧
    (license.status = "revoked" →
      revokeHandler licenses terms sites cache licenseId = (⟨400, false⟩, licenses, cache)) ∧
    (license.status ≠ "revoked" →
      (revokeHandler licenses terms sites cache licenseId).1 = ⟨200, true⟩ ∧
      ((revokeHandler licenses terms sites cache licenseId).2.1.find?
        (fun l => l.id == licenseId)) = some { license with status := "revoked" } ∧
      storeLookup
        (getLicenseCheckCacheKey
          (jsOrElse site.storyIpId ("story:local:" ++ toString site.id))
          license.buyerAddress)
        (revokeHandler licenses terms sites cache licenseId).2.2 = none) := by
  have hred : revokeHandler licenses terms sites cache licenseId =
      (if license.status = "revoked" then (⟨400, false⟩, licenses, cache)
        else
          (⟨200, true⟩,
            licenses.map (fun l =>
              if l.id = licenseId then { l with status := "revoked" } else l),
            invalidateLicenseCache
              (jsOrElse site.storyIpId ("story:local:" ++ toString site.id))
              license.buyerAddress cache)) := by
    unfold revokeHandler
    rw [hlic]
    dsimp only
    rw [htr]
    dsimp only
    rw [hsite]
  by_cases hst : license.status = "revoked"
  · rw [hred, if_pos hst]
    refine ⟨by simp [hst], fun _ => rfl, fun hne => absurd hst hne⟩
  · rw [hred, if_neg hst]
    refine ⟨by simp [hst], fun hEq => absurd hEq hst, fun _ => ⟨rfl, ?_, ?_⟩⟩
    · exact find?_map_update hlic (fun l => { l with status := "revoked" }) (fun l => rfl)
    · exact storeLookup_storeDelete_self _ cache

/-- Witness for the amended C8 at a concrete active license. -/
theorem revoke_rejects_only_revoked_witness :
    ((revokeHandler [⟨1, 1, "0xbuyer", "active"⟩]
        [⟨1, 1, "[]", "FLAT", 0, "USD", none, true⟩]
        [⟨1, "example.com", "0xO", "tok", true, some "dns", some "story:ip"⟩]
        [] 1).1.success = true ↔ ("active" : String) ≠ "revoked") ∧
    (("active" : String) ≠ "revoked" →
      (revokeHandler [⟨1, 1, "0xbuyer", "active"⟩]
        [⟨1, 1, "[]", "FLAT", 0, "USD", none, true⟩]
        [⟨1, "example.com", "0xO", "tok", true, some "dns", some "story:ip"⟩]
        [] 1).1 = ⟨200, true⟩ ∧
      ((revokeHandler [⟨1, 1, "0xbuyer", "active"⟩]
        [⟨1, 1, "[]", "FLAT", 0, "USD", none, true⟩]
        [⟨1, "example.com", "0xO", "tok", true, some "dns", some "story:ip"⟩]
        [] 1).2.1.find? (fun l => l.id == 1)) = some ⟨1, 1, "0xbuyer", "revoked"⟩ ∧
      storeLookup (getLicenseCheckCacheKey "story:ip" "0xbuyer")
        (revokeHandler [⟨1, 1, "0xbuyer", "active"⟩]
          [⟨1, 1, "[]", "FLAT", 0, "USD", none, true⟩]
          [⟨1, "example.com", "0xO", "tok", true, some "dns", some "story:ip"⟩]
          [] 1).2.2 = none) := by
  have h := revoke_rejects_only_revoked [⟨1, 1, "0xbuyer", "active"⟩]
    [⟨1, 1, "[]", "FLAT", 0, "USD", none, true⟩]
    [⟨1, "example.com", "0xO", "tok", true, some "dns", some "story:ip"⟩]
    [] 1 ⟨1, 1, "0xbuyer", "active"⟩ ⟨1, 1, "[]", "FLAT", 0, "USD", none, true⟩
    ⟨1, "example.com", "0xO", "tok", true, some "dns", some "story:ip"⟩
    rfl rfl rfl
  exact ⟨h.1, h.2.2⟩

end ScrapeSafe
